import Mathlib

/-!
Verification of the Flyweight core of `aeron-common`
(`src/aeron-common/src/main/cpp/common/Flyweight.h`).

The core under verification is the `Flyweight<struct_t>` class: a view over an
external `concurrent::AtomicBuffer` at a base offset, exposing a struct overlay
and relative-offset accessors `stringGet` / `stringPut` for length-prefixed
UTF-8 string fields.  The `AtomicBuffer` collaborator is external to the core
(its header is not part of this tree), so it is modelled from the spec: an
addressable span of bytes of fixed capacity, with a typed-overlay operation and
a length-prefixed UTF-8 string codec (a 4-byte little-endian `int32` byte-count
followed by the raw UTF-8 bytes), which reports a bounds fault when an access
would exceed capacity.  Strings are represented by their UTF-8 byte sequences
(as a C++ `std::string` is a byte sequence), so encode/decode of the payload is
the identity on bytes.  The shared underlying storage is threaded explicitly as
a `List Byte`; `size_t` arithmetic is modelled as `Nat` arithmetic modulo
`2 ^ 64` and C++ `int` arguments as `Int` converted to `size_t` by the usual
arithmetic conversions.
-/

set_option maxHeartbeats 1000000

namespace Aeron

/-- A byte of buffer storage (a `Nat`; stored values written by the codec are
below 256). -/
abbrev Byte := Nat

/-- Width of `size_t` on the target platform: 64 bits. -/
def wordSize : Nat := 2 ^ 64

/-- Modelled from the spec: the fault taxonomy of the external Buffer
collaborator — `BoundsFault` for accesses exceeding capacity, `EncodingFault`
for invalid UTF-8 on read.  (`concurrent/AtomicBuffer.h` is not part of this
core.) -/
inductive Fault where
  | BoundsFault
  | EncodingFault
  deriving DecidableEq, Repr

/-- Modelled from the spec: the Buffer handle (`concurrent::AtomicBuffer`) — a
cheap-to-copy descriptor of the underlying storage with a fixed capacity.
Copying the handle copies no bytes; the shared underlying storage itself is
threaded explicitly as a `List Byte` through every operation. -/
structure AtomicBuffer where
  capacity : Nat
  deriving DecidableEq, Repr

/-- The byte contents of the shared underlying storage. -/
abbrev Mem := List Byte

/-- Read `n` bytes of storage starting at absolute offset `off`. -/
def readBytes (mem : Mem) (off n : Nat) : List Byte :=
  (mem.drop off).take n

/-- Overwrite storage at absolute offset `off` with the bytes `bs`, leaving
all other bytes unchanged. -/
def writeBytes (mem : Mem) (off : Nat) (bs : List Byte) : Mem :=
  mem.take off ++ bs ++ mem.drop (off + bs.length)

/-- The 4-byte little-endian `int32` length field holding byte count `n`
(truncated to 32 bits, as storing an `int32` does). -/
def encodeLen4 (n : Nat) : List Byte :=
  [n % 256, n / 256 % 256, n / 65536 % 256, n / 16777216 % 256]

/-- Decode a 4-byte little-endian length field. -/
def decodeLen4 (bs : List Byte) : Nat :=
  bs.getD 0 0 + 256 * bs.getD 1 0 + 65536 * bs.getD 2 0 + 16777216 * bs.getD 3 0

/-- Modelled from the spec: `AtomicBuffer::putStringUtf8(offset, s)` — encode
and write a length-prefixed UTF-8 string at `offset` (the 4-byte byte-count
field, then the UTF-8 payload bytes), returning the total bytes written; the
Buffer reports a `BoundsFault` when the write would exceed capacity, in which
case the storage is untouched. -/
def AtomicBuffer.putStringUtf8 (buf : AtomicBuffer) (mem : Mem) (offset : Nat)
    (s : List Byte) : Except Fault (Nat × Mem) :=
  if offset + 4 + s.length ≤ buf.capacity then
    Except.ok (4 + s.length, writeBytes mem offset (encodeLen4 s.length ++ s))
  else
    Except.error Fault.BoundsFault

/-- Modelled from the spec: `AtomicBuffer::getStringUtf8(offset)` — read the
4-byte length field at `offset`, then that many payload bytes; the Buffer
reports a `BoundsFault` when either read would exceed capacity.  Strings are
modelled by their UTF-8 byte sequences, so the decode of stored payload bytes
is the identity. -/
def AtomicBuffer.getStringUtf8 (buf : AtomicBuffer) (mem : Mem) (offset : Nat) :
    Except Fault (List Byte) :=
  if offset + 4 ≤ buf.capacity then
    let len := decodeLen4 (readBytes mem offset 4)
    if offset + 4 + len ≤ buf.capacity then
      Except.ok (readBytes mem (offset + 4) len)
    else
      Except.error Fault.BoundsFault
  else
    Except.error Fault.BoundsFault

/-- Modelled from the spec: `AtomicBuffer::overlayStruct<struct_t>(offset)` —
reinterpret the byte range `[offset, offset + sizeofStruct)` as `struct_t`
without copying, returning the location of the typed reference; the Buffer
must fault on insufficient capacity.  The struct type is represented by its
size in bytes and the typed reference by its absolute offset. -/
def AtomicBuffer.overlayStruct (buf : AtomicBuffer) (offset : Nat)
    (sizeofStruct : Nat) : Except Fault Nat :=
  if offset + sizeofStruct ≤ buf.capacity then
    Except.ok offset
  else
    Except.error Fault.BoundsFault

/-- Conversion of a C++ `int` to `size_t` (the usual arithmetic conversion):
reduction modulo `2 ^ 64`, mapping negative values to their wrap-around. -/
def intToSizeT (i : Int) : Nat :=
  (i % (2 ^ 64 : Int)).toNat

/-- `size_t` addition: `Nat` addition modulo `2 ^ 64`. -/
def sizeTAdd (a b : Nat) : Nat :=
  (a + b) % wordSize

/-- The `Flyweight<struct_t>` view (`Flyweight.h`, lines 9–35): a by-value
copy of the buffer handle (`m_buffer`), the base offset (`m_baseOffset`,
a `size_t`), and the typed reference obtained from the overlay (`m_struct`,
represented by the absolute offset of the struct). -/
structure Flyweight where
  m_struct : Nat
  m_buffer : AtomicBuffer
  m_baseOffset : Nat
  deriving DecidableEq, Repr

/-- The `Flyweight` constructor (`Flyweight.h`, lines 13–17): delegates the
overlay to the buffer (`buffer.overlayStruct<struct_t>(offset)`), then stores
the typed reference, a by-value copy of the buffer handle, and the offset.
Any fault reported by the buffer passes through unchanged. -/
def Flyweight.construct (buffer : AtomicBuffer) (offset : Nat)
    (sizeofStruct : Nat) : Except Fault Flyweight :=
  (buffer.overlayStruct offset sizeofStruct).map fun ref =>
    { m_struct := ref, m_buffer := buffer, m_baseOffset := offset }

/-- `Flyweight::stringGet(size_t offset)` (`Flyweight.h`, lines 22–25):
`return m_buffer.getStringUtf8(m_baseOffset + offset)`.  Both operands are
`size_t`, so the addition is modulo `2 ^ 64`.  A pure read: the storage is
not part of the result. -/
def Flyweight.stringGet (fw : Flyweight) (mem : Mem) (offset : Nat) :
    Except Fault (List Byte) :=
  fw.m_buffer.getStringUtf8 mem (sizeTAdd fw.m_baseOffset offset)

/-- `Flyweight::stringPut(int offset, const std::string& s)` (`Flyweight.h`,
lines 27–30): `return m_buffer.putStringUtf8(m_baseOffset + offset, s)`.
The `int` offset is converted to `size_t` before the addition. -/
def Flyweight.stringPut (fw : Flyweight) (mem : Mem) (offset : Int)
    (s : List Byte) : Except Fault (Nat × Mem) :=
  fw.m_buffer.putStringUtf8 mem (sizeTAdd fw.m_baseOffset (intToSizeT offset)) s

/-- A string-accessor operation on a view. -/
inductive Op where
  | get (offset : Nat)
  | put (offset : Int) (s : List Byte)

/-- Run a sequence of string accessors through a view, threading the shared
storage; a faulting operation leaves the storage unchanged. -/
def runOps (fw : Flyweight) (mem : Mem) : List Op → Mem
  | [] => mem
  | Op.get _ :: ops => runOps fw mem ops
  | Op.put off s :: ops =>
    match fw.stringPut mem off s with
    | Except.ok (_, mem') => runOps fw mem' ops
    | Except.error _ => runOps fw mem ops

theorem length_writeBytes (mem : Mem) (off : Nat) (bs : List Byte)
    (h : off + bs.length ≤ mem.length) :
    (writeBytes mem off bs).length = mem.length := by
  simp [writeBytes, List.length_take, List.length_drop]
  omega

theorem readBytes_writeBytes_within (mem : Mem) (off : Nat) (bs : List Byte)
    (k n : Nat) (hkn : k + n ≤ bs.length) (h : off + bs.length ≤ mem.length) :
    readBytes (writeBytes mem off bs) (off + k) n = (bs.drop k).take n := by
  unfold readBytes writeBytes
  rw [← List.drop_drop]
  rw [List.append_assoc]
  rw [List.drop_left' (by simp [List.length_take]; omega)]
  rw [List.drop_append_of_le_length (by omega)]
  rw [List.take_append_of_le_length (by simp [List.length_drop]; omega)]

theorem readBytes_writeBytes_before (mem : Mem) (off : Nat) (bs : List Byte)
    (off2 n : Nat) (hd : off2 + n ≤ off) (h : off ≤ mem.length) :
    readBytes (writeBytes mem off bs) off2 n = readBytes mem off2 n := by
  unfold readBytes writeBytes
  rw [List.append_assoc]
  rw [List.drop_append_of_le_length (by simp [List.length_take]; omega)]
  rw [List.take_append_of_le_length (by simp [List.length_take, List.length_drop]; omega)]
  rw [List.drop_take]
  rw [List.take_take]
  congr 1
  omega

theorem readBytes_writeBytes_after (mem : Mem) (off : Nat) (bs : List Byte)
    (off2 n : Nat) (hd : off + bs.length ≤ off2) (h : off + bs.length ≤ mem.length) :
    readBytes (writeBytes mem off bs) off2 n = readBytes mem off2 n := by
  unfold readBytes writeBytes
  have hoff2 : off2 = (mem.take off ++ bs).length + (off2 - (off + bs.length)) := by
    simp [List.length_take]
    omega
  rw [hoff2, List.drop_append, List.drop_drop]
  congr 2
  omega

theorem decodeLen4_encodeLen4 (n : Nat) :
    decodeLen4 (encodeLen4 n) = n % 4294967296 := by
  simp [decodeLen4, encodeLen4]
  omega

theorem putStringUtf8_ok (buf : AtomicBuffer) (mem : Mem) (off : Nat)
    (s : List Byte) (r : Nat) (mem' : Mem)
    (hput : buf.putStringUtf8 mem off s = Except.ok (r, mem')) :
    off + 4 + s.length ≤ buf.capacity ∧ r = 4 + s.length ∧
      mem' = writeBytes mem off (encodeLen4 s.length ++ s) := by
  unfold AtomicBuffer.putStringUtf8 at hput
  by_cases hb : off + 4 + s.length ≤ buf.capacity
  · rw [if_pos hb] at hput
    simp only [Except.ok.injEq, Prod.mk.injEq] at hput
    exact ⟨hb, hput.1.symm, hput.2.symm⟩
  · rw [if_neg hb] at hput
    exact absurd hput (by simp)

theorem getStringUtf8_putStringUtf8 (buf : AtomicBuffer) (mem : Mem) (off : Nat)
    (s : List Byte) (r : Nat) (mem' : Mem)
    (hcap : mem.length = buf.capacity) (hs : s.length < 4294967296)
    (hput : buf.putStringUtf8 mem off s = Except.ok (r, mem')) :
    buf.getStringUtf8 mem' off = Except.ok s ∧ r = 4 + s.length ∧
      mem'.length = mem.length ∧ readBytes mem' off 4 = encodeLen4 s.length := by
  obtain ⟨hb, hr, hm⟩ := putStringUtf8_ok buf mem off s r mem' hput
  subst hm
  have henc : (encodeLen4 s.length).length = 4 := by simp [encodeLen4]
  have hwlen : off + (encodeLen4 s.length ++ s).length ≤ mem.length := by
    simp [encodeLen4]; omega
  have h4 : readBytes (writeBytes mem off (encodeLen4 s.length ++ s)) off 4 =
      encodeLen4 s.length := by
    have := readBytes_writeBytes_within mem off (encodeLen4 s.length ++ s) 0 4
      (by simp [encodeLen4]) hwlen
    simpa [List.take_left' henc] using this
  have hpay : readBytes (writeBytes mem off (encodeLen4 s.length ++ s))
      (off + 4) s.length = s := by
    have := readBytes_writeBytes_within mem off (encodeLen4 s.length ++ s) 4
      s.length (by simp [encodeLen4]; omega) hwlen
    rwa [List.drop_left' henc, List.take_length] at this
  refine ⟨?_, hr, length_writeBytes mem off _ hwlen, h4⟩
  unfold AtomicBuffer.getStringUtf8
  rw [h4, decodeLen4_encodeLen4, Nat.mod_eq_of_lt hs]
  rw [if_pos (by omega), if_pos (by omega), hpay]

theorem getStringUtf8_after_put_disjoint (buf : AtomicBuffer) (mem : Mem)
    (a off : Nat) (s : List Byte) (r : Nat) (mem' : Mem)
    (hcap : mem.length = buf.capacity)
    (hput : buf.putStringUtf8 mem off s = Except.ok (r, mem'))
    (hd : a + 4 + decodeLen4 (readBytes mem a 4) ≤ off) :
    buf.getStringUtf8 mem' a = buf.getStringUtf8 mem a := by
  obtain ⟨hb, hr, hm⟩ := putStringUtf8_ok buf mem off s r mem' hput
  subst hm
  have hwlen : off + (encodeLen4 s.length ++ s).length ≤ mem.length := by
    simp [encodeLen4]; omega
  have h4 : readBytes (writeBytes mem off (encodeLen4 s.length ++ s)) a 4 =
      readBytes mem a 4 :=
    readBytes_writeBytes_before mem off _ a 4 (by omega) (by omega)
  unfold AtomicBuffer.getStringUtf8
  rw [h4]
  by_cases h1 : a + 4 ≤ buf.capacity
  · rw [if_pos h1, if_pos h1]
    by_cases h2 : a + 4 + decodeLen4 (readBytes mem a 4) ≤ buf.capacity
    · rw [if_pos h2, if_pos h2]
      rw [readBytes_writeBytes_before mem off _ (a + 4)
        (decodeLen4 (readBytes mem a 4)) (by omega) (by omega)]
    · rw [if_neg h2, if_neg h2]
  · rw [if_neg h1, if_neg h1]

theorem intToSizeT_natCast (n : Nat) (h : n < 2 ^ 64) :
    intToSizeT (n : Int) = n := by
  unfold intToSizeT
  omega

theorem sizeTAdd_eq (a b : Nat) (h : a + b < 2 ^ 64) : sizeTAdd a b = a + b := by
  unfold sizeTAdd wordSize
  exact Nat.mod_eq_of_lt h

/-- Claim C1: round trip — for every string `s` (as its UTF-8 byte sequence,
with byte length below `2 ^ 32`) and relative offset `off`, a successful
`stringPut(off, s)` followed by `stringGet(off)` on the same view (same
buffer handle, same base offset) returns exactly `s`, the Buffer codec being
the length-prefixed UTF-8 codec modelled from the spec. -/
theorem stringPut_stringGet_roundtrip (fw : Flyweight) (mem : Mem) (off : Nat)
    (s : List Byte) (r : Nat) (mem' : Mem)
    (hcap : mem.length = fw.m_buffer.capacity)
    (hoff : off < 2 ^ 64)
    (hs : s.length < 4294967296)
    (hput : fw.stringPut mem (off : Int) s = Except.ok (r, mem')) :
    fw.stringGet mem' off = Except.ok s := by
  unfold Flyweight.stringPut at hput
  rw [intToSizeT_natCast off hoff] at hput
  unfold Flyweight.stringGet
  exact (getStringUtf8_putStringUtf8 _ _ _ _ _ _ hcap hs hput).1

/-- Claim C1 witness: concrete round trip on a 16-byte buffer. -/
theorem stringPut_stringGet_roundtrip_witness :
    (List.replicate 16 0).length = (AtomicBuffer.mk 16).capacity ∧
    (0 : Nat) < 2 ^ 64 ∧ ([65] : List Byte).length < 4294967296 ∧
    Flyweight.stringPut ⟨0, ⟨16⟩, 0⟩ (List.replicate 16 0) ((0 : Nat) : Int) [65] =
      Except.ok (5, [1, 0, 0, 0, 65, 0, 0, 0, 0, 0, 0, 0, 0, 0, 0, 0]) ∧
    Flyweight.stringGet ⟨0, ⟨16⟩, 0⟩
      [1, 0, 0, 0, 65, 0, 0, 0, 0, 0, 0, 0, 0, 0, 0, 0] 0 = Except.ok [65] :=
  ⟨rfl, by decide, by decide, rfl,
    stringPut_stringGet_roundtrip ⟨0, ⟨16⟩, 0⟩ (List.replicate 16 0) 0 [65] 5
      [1, 0, 0, 0, 65, 0, 0, 0, 0, 0, 0, 0, 0, 0, 0, 0]
      rfl (by decide) (by decide) rfl⟩

/-- Claim C2: size contract — `stringPut(off, s)` delegates the write to the
Buffer's length-prefixed encode at absolute offset `base_offset + off`,
returns `4 + s.length` (length-prefix size plus UTF-8 byte length), and
consumes exactly those bytes: the storage keeps its length and is unchanged
before `base_offset + off` and from `base_offset + off + (4 + s.length)`
on. -/
theorem stringPut_size_contract (fw : Flyweight) (mem : Mem) (off : Nat)
    (s : List Byte) (r : Nat) (mem' : Mem)
    (hcap : mem.length = fw.m_buffer.capacity)
    (hbo : fw.m_baseOffset + off < 2 ^ 64)
    (hput : fw.stringPut mem ((off : Nat) : Int) s = Except.ok (r, mem')) :
    fw.stringPut mem ((off : Nat) : Int) s =
      fw.m_buffer.putStringUtf8 mem (fw.m_baseOffset + off) s ∧
    r = 4 + s.length ∧ mem'.length = mem.length ∧
    (∀ n, n ≤ fw.m_baseOffset + off →
      readBytes mem' 0 n = readBytes mem 0 n) ∧
    (∀ off2 n, fw.m_baseOffset + off + (4 + s.length) ≤ off2 →
      readBytes mem' off2 n = readBytes mem off2 n) := by
  have habs : sizeTAdd fw.m_baseOffset (intToSizeT ((off : Nat) : Int)) =
      fw.m_baseOffset + off := by
    rw [intToSizeT_natCast off (by omega), sizeTAdd_eq _ _ hbo]
  have hdeleg : fw.stringPut mem ((off : Nat) : Int) s =
      fw.m_buffer.putStringUtf8 mem (fw.m_baseOffset + off) s := by
    unfold Flyweight.stringPut
    rw [habs]
  rw [hdeleg] at hput
  obtain ⟨hb, hr, hm⟩ := putStringUtf8_ok _ _ _ _ _ _ hput
  subst hm
  have hwlen : fw.m_baseOffset + off + (encodeLen4 s.length ++ s).length ≤
      mem.length := by
    simp [encodeLen4]; omega
  refine ⟨hdeleg, hr, length_writeBytes _ _ _ hwlen, ?_, ?_⟩
  · intro n hn
    exact readBytes_writeBytes_before _ _ _ _ _ (by omega) (by omega)
  · intro off2 n h2
    refine readBytes_writeBytes_after _ _ _ _ _ ?_ hwlen
    simp [encodeLen4]
    omega

/-- Claim C2 witness: concrete size contract on a 16-byte buffer. -/
theorem stringPut_size_contract_witness :
    (List.replicate 16 0).length = (AtomicBuffer.mk 16).capacity ∧
    (0 : Nat) + 2 < 2 ^ 64 ∧
    Flyweight.stringPut ⟨0, ⟨16⟩, 0⟩ (List.replicate 16 0) ((2 : Nat) : Int) [65] =
      Except.ok (5, [0, 0, 1, 0, 0, 0, 65, 0, 0, 0, 0, 0, 0, 0, 0, 0]) ∧
    (Flyweight.stringPut ⟨0, ⟨16⟩, 0⟩ (List.replicate 16 0) ((2 : Nat) : Int) [65] =
      AtomicBuffer.putStringUtf8 ⟨16⟩ (List.replicate 16 0) ((0 : Nat) + 2) [65] ∧
    (5 : Nat) = 4 + ([65] : List Byte).length ∧
    ([0, 0, 1, 0, 0, 0, 65, 0, 0, 0, 0, 0, 0, 0, 0, 0] : Mem).length =
      (List.replicate 16 0 : Mem).length ∧
    (∀ n, n ≤ (0 : Nat) + 2 →
      readBytes [0, 0, 1, 0, 0, 0, 65, 0, 0, 0, 0, 0, 0, 0, 0, 0] 0 n =
        readBytes (List.replicate 16 0) 0 n) ∧
    (∀ off2 n, (0 : Nat) + 2 + (4 + ([65] : List Byte).length) ≤ off2 →
      readBytes [0, 0, 1, 0, 0, 0, 65, 0, 0, 0, 0, 0, 0, 0, 0, 0] off2 n =
        readBytes (List.replicate 16 0) off2 n)) :=
  ⟨rfl, by decide, rfl,
    stringPut_size_contract ⟨0, ⟨16⟩, 0⟩ (List.replicate 16 0) 2 [65] 5
      [0, 0, 1, 0, 0, 0, 65, 0, 0, 0, 0, 0, 0, 0, 0, 0] rfl (by decide) rfl⟩

/-- Claim C4: `stringGet(off)` delegates to the Buffer's length-prefixed
UTF-8 decode at absolute offset `base_offset + off`, is a pure read (it
produces no new storage and leaves the view unchanged, as witnessed by
`runOps`), and returns exactly the string previously written at that absolute
offset by the Buffer's length-prefixed encoder. -/
theorem stringGet_pure_read_exact (fw : Flyweight) (mem : Mem) (off : Nat)
    (s : List Byte) (r : Nat) (mem' : Mem)
    (hcap : mem.length = fw.m_buffer.capacity)
    (hbo : fw.m_baseOffset + off < 2 ^ 64)
    (hs : s.length < 4294967296)
    (henc : fw.m_buffer.putStringUtf8 mem (fw.m_baseOffset + off) s =
      Except.ok (r, mem')) :
    fw.stringGet mem' off =
      fw.m_buffer.getStringUtf8 mem' (fw.m_baseOffset + off) ∧
    runOps fw mem' [Op.get off] = mem' ∧
    fw.stringGet mem' off = Except.ok s := by
  have habs : sizeTAdd fw.m_baseOffset off = fw.m_baseOffset + off :=
    sizeTAdd_eq _ _ hbo
  constructor
  · unfold Flyweight.stringGet
    rw [habs]
  constructor
  · rfl
  · unfold Flyweight.stringGet
    rw [habs]
    exact (getStringUtf8_putStringUtf8 _ _ _ _ _ _ hcap hs henc).1

/-- Claim C4 witness: concrete pure read on a 16-byte buffer. -/
theorem stringGet_pure_read_exact_witness :
    (List.replicate 16 0).length = (AtomicBuffer.mk 16).capacity ∧
    (0 : Nat) + 3 < 2 ^ 64 ∧ ([66] : List Byte).length < 4294967296 ∧
    AtomicBuffer.putStringUtf8 ⟨16⟩ (List.replicate 16 0) ((0 : Nat) + 3) [66] =
      Except.ok (5, [0, 0, 0, 1, 0, 0, 0, 66, 0, 0, 0, 0, 0, 0, 0, 0]) ∧
    (Flyweight.stringGet ⟨0, ⟨16⟩, 0⟩
        [0, 0, 0, 1, 0, 0, 0, 66, 0, 0, 0, 0, 0, 0, 0, 0] 3 =
      AtomicBuffer.getStringUtf8 ⟨16⟩
        [0, 0, 0, 1, 0, 0, 0, 66, 0, 0, 0, 0, 0, 0, 0, 0] ((0 : Nat) + 3) ∧
    runOps ⟨0, ⟨16⟩, 0⟩ [0, 0, 0, 1, 0, 0, 0, 66, 0, 0, 0, 0, 0, 0, 0, 0]
        [Op.get 3] = [0, 0, 0, 1, 0, 0, 0, 66, 0, 0, 0, 0, 0, 0, 0, 0] ∧
    Flyweight.stringGet ⟨0, ⟨16⟩, 0⟩
        [0, 0, 0, 1, 0, 0, 0, 66, 0, 0, 0, 0, 0, 0, 0, 0] 3 = Except.ok [66]) :=
  ⟨rfl, by decide, by decide, rfl,
    stringGet_pure_read_exact ⟨0, ⟨16⟩, 0⟩ (List.replicate 16 0) 3 [66] 5
      [0, 0, 0, 1, 0, 0, 0, 66, 0, 0, 0, 0, 0, 0, 0, 0]
      rfl (by decide) (by decide) rfl⟩

/-- Claim C5: construction delegates the overlay to the Buffer
(`buffer.overlayStruct<struct_t>(offset)`) and stores the typed reference,
a by-value copy of the handle and the base offset; this layer performs no
independent bounds check — the success or `BoundsFault` outcome is exactly
the Buffer's capacity check `offset + sizeof(struct_t) ≤ capacity`. -/
theorem construct_overlay_no_independent_check (buffer : AtomicBuffer)
    (offset sz : Nat) :
    Flyweight.construct buffer offset sz =
      (buffer.overlayStruct offset sz).map
        (fun ref =>
          { m_struct := ref, m_buffer := buffer, m_baseOffset := offset }) ∧
    Flyweight.construct buffer offset sz =
      (if offset + sz ≤ buffer.capacity then
        Except.ok
          { m_struct := offset, m_buffer := buffer, m_baseOffset := offset }
      else Except.error Fault.BoundsFault) := by
  refine ⟨rfl, ?_⟩
  unfold Flyweight.construct AtomicBuffer.overlayStruct
  by_cases h : offset + sz ≤ buffer.capacity
  · rw [if_pos h, if_pos h]
    rfl
  · rw [if_neg h, if_neg h]
    rfl

/-- Claim C3: offset chaining — writing `A` at relative offset `o`, then `B`
at relative offset `o + rA` where `rA` is `stringPut`'s return value for `A`,
and reading both back at those offsets, yields exactly `A` and `B`; the
returns are `4 + A.length` and `4 + B.length`. -/
theorem stringPut_offset_chaining (fw : Flyweight) (mem : Mem) (o : Nat)
    (A B : List Byte) (rA rB : Nat) (memA memB : Mem)
    (hcap : mem.length = fw.m_buffer.capacity)
    (hbound : fw.m_baseOffset + o + 8 + A.length + B.length < 2 ^ 64)
    (hA : A.length < 4294967296) (hB : B.length < 4294967296)
    (hputA : fw.stringPut mem ((o : Nat) : Int) A = Except.ok (rA, memA))
    (hputB : fw.stringPut memA (((o + rA : Nat)) : Int) B =
      Except.ok (rB, memB)) :
    fw.stringGet memB o = Except.ok A ∧
    fw.stringGet memB (o + rA) = Except.ok B ∧
    rA = 4 + A.length ∧ rB = 4 + B.length := by
  unfold Flyweight.stringPut at hputA hputB
  rw [intToSizeT_natCast o (by omega), sizeTAdd_eq _ _ (by omega)] at hputA
  obtain ⟨hgA, hrA, hlenA, hread4A⟩ :=
    getStringUtf8_putStringUtf8 _ _ _ _ _ _ hcap hA hputA
  subst hrA
  rw [intToSizeT_natCast (o + (4 + A.length)) (by omega),
    sizeTAdd_eq _ _ (by omega)] at hputB
  have hcapA : memA.length = fw.m_buffer.capacity := by rw [hlenA, hcap]
  obtain ⟨hgB, hrB, hlenB, hread4B⟩ :=
    getStringUtf8_putStringUtf8 _ _ _ _ _ _ hcapA hB hputB
  subst hrB
  have hdlen : decodeLen4 (readBytes memA (fw.m_baseOffset + o) 4) =
      A.length := by
    rw [hread4A, decodeLen4_encodeLen4, Nat.mod_eq_of_lt hA]
  have hdis := getStringUtf8_after_put_disjoint fw.m_buffer memA
    (fw.m_baseOffset + o) (fw.m_baseOffset + (o + (4 + A.length))) B
    (4 + B.length) memB hcapA hputB (by rw [hdlen]; omega)
  refine ⟨?_, ?_, rfl, rfl⟩
  · unfold Flyweight.stringGet
    rw [sizeTAdd_eq _ _ (by omega), hdis]
    exact hgA
  · unfold Flyweight.stringGet
    rw [sizeTAdd_eq _ _ (by omega)]
    exact hgB

/-- Claim C3 witness: concrete chaining of `[65]` then `[66, 67]` on a
32-byte buffer. -/
theorem stringPut_offset_chaining_witness :
    (List.replicate 32 0).length = (AtomicBuffer.mk 32).capacity ∧
    (0 : Nat) + 0 + 8 + 1 + 2 < 2 ^ 64 ∧
    ([65] : List Byte).length < 4294967296 ∧
    ([66, 67] : List Byte).length < 4294967296 ∧
    Flyweight.stringPut ⟨0, ⟨32⟩, 0⟩ (List.replicate 32 0) ((0 : Nat) : Int)
        [65] =
      Except.ok (5, [1, 0, 0, 0, 65] ++ List.replicate 27 0) ∧
    Flyweight.stringPut ⟨0, ⟨32⟩, 0⟩ ([1, 0, 0, 0, 65] ++ List.replicate 27 0)
        (((0 + 5 : Nat)) : Int) [66, 67] =
      Except.ok (6, [1, 0, 0, 0, 65, 2, 0, 0, 0, 66, 67] ++
        List.replicate 21 0) ∧
    (Flyweight.stringGet ⟨0, ⟨32⟩, 0⟩
        ([1, 0, 0, 0, 65, 2, 0, 0, 0, 66, 67] ++ List.replicate 21 0) 0 =
      Except.ok [65] ∧
    Flyweight.stringGet ⟨0, ⟨32⟩, 0⟩
        ([1, 0, 0, 0, 65, 2, 0, 0, 0, 66, 67] ++ List.replicate 21 0) (0 + 5) =
      Except.ok [66, 67] ∧
    (5 : Nat) = 4 + ([65] : List Byte).length ∧
    (6 : Nat) = 4 + ([66, 67] : List Byte).length) :=
  ⟨rfl, by decide, by decide, by decide, rfl, rfl,
    stringPut_offset_chaining ⟨0, ⟨32⟩, 0⟩ (List.replicate 32 0) 0 [65]
      [66, 67] 5 6 ([1, 0, 0, 0, 65] ++ List.replicate 27 0)
      ([1, 0, 0, 0, 65, 2, 0, 0, 0, 66, 67] ++ List.replicate 21 0)
      rfl (by decide) (by decide) (by decide) rfl rfl⟩

/-- Claim C6: the concrete scenario — 64-byte buffer, 8-byte fixed record,
view at offset 0; `stringPut(8, "abc")` returns `7`, `stringPut(15, "")`
returns `4`, then `stringGet(8)` returns `"abc"` and `stringGet(15)` returns
`""` (`"abc"` as UTF-8 bytes `[97, 98, 99]`). -/
theorem concrete_scenario_64 :
    (do
      let fw ← Flyweight.construct ⟨64⟩ 0 8
      let p1 ← fw.stringPut (List.replicate 64 0) (8 : Int) [97, 98, 99]
      let p2 ← fw.stringPut p1.2 (15 : Int) []
      let sName ← fw.stringGet p2.2 8
      let sTag ← fw.stringGet p2.2 15
      Except.ok (p1.1, p2.1, sName, sTag)) =
      Except.ok (7, 4, [97, 98, 99], []) := by
  rfl

/-- Claim C7: aliasing — a view whose handle/offset pair equals another's
(including a by-value copy of the buffer handle) observes the other's writes
immediately: a `stringPut` through one is seen by a `stringGet` at the same
relative offset through the other, on the same shared storage. -/
theorem aliasing_copies_observe_writes (v1 v2 : Flyweight) (mem : Mem)
    (off : Nat) (s : List Byte) (r : Nat) (mem' : Mem)
    (hbuf : v2.m_buffer = v1.m_buffer)
    (hbase : v2.m_baseOffset = v1.m_baseOffset)
    (hcap : mem.length = v1.m_buffer.capacity)
    (hoff : off < 2 ^ 64) (hs : s.length < 4294967296)
    (hput : v1.stringPut mem ((off : Nat) : Int) s = Except.ok (r, mem')) :
    v2.stringGet mem' off = Except.ok s := by
  unfold Flyweight.stringPut at hput
  rw [intToSizeT_natCast off hoff] at hput
  unfold Flyweight.stringGet
  rw [hbuf, hbase]
  exact (getStringUtf8_putStringUtf8 _ _ _ _ _ _ hcap hs hput).1

/-- Claim C7 witness: two identically constructed views over a 16-byte
buffer; a write through the first is read back through the second. -/
theorem aliasing_copies_observe_writes_witness :
    ((⟨0, ⟨16⟩, 0⟩ : Flyweight).m_buffer =
      (⟨0, ⟨16⟩, 0⟩ : Flyweight).m_buffer) ∧
    ((⟨0, ⟨16⟩, 0⟩ : Flyweight).m_baseOffset =
      (⟨0, ⟨16⟩, 0⟩ : Flyweight).m_baseOffset) ∧
    (List.replicate 16 0).length = (AtomicBuffer.mk 16).capacity ∧
    (2 : Nat) < 2 ^ 64 ∧ ([67] : List Byte).length < 4294967296 ∧
    Flyweight.stringPut ⟨0, ⟨16⟩, 0⟩ (List.replicate 16 0) ((2 : Nat) : Int)
        [67] =
      Except.ok (5, [0, 0, 1, 0, 0, 0, 67, 0, 0, 0, 0, 0, 0, 0, 0, 0]) ∧
    Flyweight.stringGet ⟨0, ⟨16⟩, 0⟩
      [0, 0, 1, 0, 0, 0, 67, 0, 0, 0, 0, 0, 0, 0, 0, 0] 2 = Except.ok [67] :=
  ⟨rfl, rfl, rfl, by decide, by decide, rfl,
    aliasing_copies_observe_writes ⟨0, ⟨16⟩, 0⟩ ⟨0, ⟨16⟩, 0⟩
      (List.replicate 16 0) 2 [67] 5
      [0, 0, 1, 0, 0, 0, 67, 0, 0, 0, 0, 0, 0, 0, 0, 0]
      rfl rfl rfl (by decide) (by decide) rfl⟩

/-- Claim C8: error propagation and atomicity — construction, `stringGet`
and `stringPut` are transparent delegations to the Buffer with no local
recovery: `stringGet`/`stringPut` equal the Buffer call itself (so any fault
the Buffer reports is returned unchanged), and any fault from the overlay
passes through construction unchanged; a `stringPut` whose addressed range
exceeds capacity yields `BoundsFault` and leaves the storage unchanged, and
a `stringGet` whose addressed range exceeds capacity — at the length-field
read or at the payload read of the decoded length — yields `BoundsFault`
(and, being a pure read, touches no storage). -/
theorem fault_passthrough_and_bounds (fw : Flyweight) (mem : Mem)
    (offG : Nat) (offP : Int) (s : List Byte)
    (buffer : AtomicBuffer) (offset sz : Nat) :
    fw.stringGet mem offG =
      fw.m_buffer.getStringUtf8 mem (sizeTAdd fw.m_baseOffset offG) ∧
    fw.stringPut mem offP s =
      fw.m_buffer.putStringUtf8 mem
        (sizeTAdd fw.m_baseOffset (intToSizeT offP)) s ∧
    (∀ e, buffer.overlayStruct offset sz = Except.error e →
      Flyweight.construct buffer offset sz = Except.error e) ∧
    (fw.m_buffer.capacity <
        sizeTAdd fw.m_baseOffset (intToSizeT offP) + 4 + s.length →
      fw.stringPut mem offP s = Except.error Fault.BoundsFault ∧
      runOps fw mem [Op.put offP s] = mem) ∧
    (fw.m_buffer.capacity < sizeTAdd fw.m_baseOffset offG + 4 ∨
        fw.m_buffer.capacity < sizeTAdd fw.m_baseOffset offG + 4 +
          decodeLen4 (readBytes mem (sizeTAdd fw.m_baseOffset offG) 4) →
      fw.stringGet mem offG = Except.error Fault.BoundsFault) := by
  refine ⟨rfl, rfl, ?_, ?_, ?_⟩
  · intro e he
    unfold Flyweight.construct
    rw [he]
    rfl
  · intro h
    have hp : fw.stringPut mem offP s = Except.error Fault.BoundsFault := by
      unfold Flyweight.stringPut AtomicBuffer.putStringUtf8
      rw [if_neg (by omega)]
    refine ⟨hp, ?_⟩
    simp [runOps, hp]
  · intro h
    unfold Flyweight.stringGet AtomicBuffer.getStringUtf8
    by_cases h1 : sizeTAdd fw.m_baseOffset offG + 4 ≤ fw.m_buffer.capacity
    · rcases h with h | h
      · exact absurd h1 (by omega)
      · rw [if_pos h1, if_neg (by omega)]
    · rw [if_neg h1]

/-- Claim C8 witness: on a 4-byte buffer, overlaying an 8-byte record at
offset 2 faults through construction unchanged, and a put and a get at
relative offset 1 both exceed capacity, fault with `BoundsFault`, the put
leaving the storage unchanged. -/
theorem fault_passthrough_and_bounds_witness :
    AtomicBuffer.overlayStruct ⟨4⟩ 2 8 = Except.error Fault.BoundsFault ∧
    Flyweight.construct ⟨4⟩ 2 8 = Except.error Fault.BoundsFault ∧
    ((AtomicBuffer.mk 4).capacity <
      sizeTAdd (0 : Nat) (intToSizeT 1) + 4 + ([] : List Byte).length) ∧
    Flyweight.stringPut ⟨0, ⟨4⟩, 0⟩ (List.replicate 4 0) 1 [] =
      Except.error Fault.BoundsFault ∧
    runOps ⟨0, ⟨4⟩, 0⟩ (List.replicate 4 0) [Op.put 1 []] =
      List.replicate 4 0 ∧
    ((AtomicBuffer.mk 4).capacity < sizeTAdd (0 : Nat) (1 : Nat) + 4 ∨
      (AtomicBuffer.mk 4).capacity < sizeTAdd (0 : Nat) (1 : Nat) + 4 +
        decodeLen4 (readBytes (List.replicate 4 0) (sizeTAdd 0 1) 4)) ∧
    Flyweight.stringGet ⟨0, ⟨4⟩, 0⟩ (List.replicate 4 0) 1 =
      Except.error Fault.BoundsFault := by
  have h := fault_passthrough_and_bounds ⟨0, ⟨4⟩, 0⟩ (List.replicate 4 0) 1 1
    [] ⟨4⟩ 2 8
  exact ⟨rfl, h.2.2.1 Fault.BoundsFault rfl, by decide,
    (h.2.2.2.1 (by decide)).1, (h.2.2.2.1 (by decide)).2,
    Or.inl (by decide), h.2.2.2.2 (Or.inl (by decide))⟩

/-- Claim C9: statelessness — a constructed view's state is exactly what
construction established (`m_buffer`, `m_baseOffset`, `m_struct`); no
`stringGet`/`stringPut` sequence alters it, so an equivalent view is always
reconstructible from the same `(buffer, offset)` pair and behaves
identically on any operation sequence. -/
theorem view_stateless_rederivable (buffer : AtomicBuffer) (offset sz : Nat)
    (fw : Flyweight)
    (hc : Flyweight.construct buffer offset sz = Except.ok fw) :
    fw.m_buffer = buffer ∧ fw.m_baseOffset = offset ∧ fw.m_struct = offset ∧
    Flyweight.construct fw.m_buffer fw.m_baseOffset sz = Except.ok fw ∧
    ∀ mem ops, runOps fw mem ops =
      runOps { m_struct := offset, m_buffer := buffer,
               m_baseOffset := offset } mem ops := by
  unfold Flyweight.construct AtomicBuffer.overlayStruct at hc
  by_cases h : offset + sz ≤ buffer.capacity
  · rw [if_pos h] at hc
    simp only [Except.map, Except.ok.injEq] at hc
    subst hc
    refine ⟨rfl, rfl, rfl, ?_, fun mem ops => rfl⟩
    unfold Flyweight.construct AtomicBuffer.overlayStruct
    rw [if_pos h]
    rfl
  · rw [if_neg h] at hc
    exact absurd hc (by simp [Except.map])

/-- Claim C9 witness: the view constructed over a 64-byte buffer at offset 0
with an 8-byte record is re-derivable and operation sequences leave it
unchanged. -/
theorem view_stateless_rederivable_witness :
    Flyweight.construct ⟨64⟩ 0 8 = Except.ok ⟨0, ⟨64⟩, 0⟩ ∧
    ((⟨0, ⟨64⟩, 0⟩ : Flyweight).m_buffer = (⟨64⟩ : AtomicBuffer) ∧
    (⟨0, ⟨64⟩, 0⟩ : Flyweight).m_baseOffset = 0 ∧
    (⟨0, ⟨64⟩, 0⟩ : Flyweight).m_struct = 0 ∧
    Flyweight.construct (⟨0, ⟨64⟩, 0⟩ : Flyweight).m_buffer
      (⟨0, ⟨64⟩, 0⟩ : Flyweight).m_baseOffset 8 = Except.ok ⟨0, ⟨64⟩, 0⟩ ∧
    ∀ mem ops, runOps ⟨0, ⟨64⟩, 0⟩ mem ops =
      runOps { m_struct := 0, m_buffer := ⟨64⟩, m_baseOffset := 0 } mem ops) :=
  ⟨rfl, view_stateless_rederivable ⟨64⟩ 0 8 ⟨0, ⟨64⟩, 0⟩ rfl⟩

/-- Claim C10: offset-type asymmetry — `stringGet` takes a `size_t` relative
offset (a `Nat`, never negative) while `stringPut` takes a C++ `int`; for a
negative offset `n`, the `int` is converted to `size_t` before the addition,
so the absolute offset handed to the Buffer is `base_offset + n` modulo
`2 ^ 64` (unsigned wrap-around), a non-negative value, not a rejected one. -/
theorem stringPut_negative_offset_wraps (fw : Flyweight) (mem : Mem) (n : Int)
    (s : List Byte) (hn : n < 0) :
    fw.stringPut mem n s =
      fw.m_buffer.putStringUtf8 mem
        ((((fw.m_baseOffset : Int) + n) % ((2 : Int) ^ 64)).toNat) s ∧
    (0 : Int) ≤ ((fw.m_baseOffset : Int) + n) % ((2 : Int) ^ 64) := by
  have h64 : ((2 : Int) ^ 64) = 18446744073709551616 := by norm_num
  have h64n : ((2 : Nat) ^ 64) = 18446744073709551616 := by norm_num
  have habs : sizeTAdd fw.m_baseOffset (intToSizeT n) =
      (((fw.m_baseOffset : Int) + n) % ((2 : Int) ^ 64)).toNat := by
    unfold sizeTAdd intToSizeT wordSize
    rw [h64, h64n]
    omega
  constructor
  · unfold Flyweight.stringPut
    rw [habs]
  · rw [h64]
    omega

/-- Claim C10 witness: a put at relative offset `-1` from base offset 5 on a
16-byte buffer addresses absolute offset 4 by unsigned wrap-around. -/
theorem stringPut_negative_offset_wraps_witness :
    ((-1 : Int) < 0) ∧
    Flyweight.stringPut ⟨0, ⟨16⟩, 5⟩ (List.replicate 16 0) (-1) [] =
      AtomicBuffer.putStringUtf8 ⟨16⟩ (List.replicate 16 0)
        ((((5 : Nat) : Int) + (-1)) % ((2 : Int) ^ 64)).toNat [] ∧
    (0 : Int) ≤ (((5 : Nat) : Int) + (-1)) % ((2 : Int) ^ 64) := by
  have h := stringPut_negative_offset_wraps ⟨0, ⟨16⟩, 5⟩ (List.replicate 16 0)
    (-1) [] (by decide)
  exact ⟨by decide, h.1, h.2⟩

end Aeron
